import Mathlib

/-!
Verification of the sharded lookup engine, the V2 request handler and the
OHTTP envelope of the key-value service.

The definitions below are a shallow embedding of the C++ sources:

* `components/internal_server/sharded_lookup.cc` — bucketing, serialization,
  padding, fan-out dispatch, response assembly (`UpdateResponse`,
  `SetRequestFailed`, `BucketKeys`, `SerializeShardedRequests`,
  `ComputePadding`, `ShardKeys`, `GetLookupFutures`, `ProcessShardedKeys`,
  `CollectKeySets`, `GetShardedKeyValueSet`, `GetKeyValueSets`, `RunQuery`,
  `RunSetQueryInt`).
* `components/data_server/request_handler/` — the V2 handler and the OHTTP
  encryptors (their `.cc` files are not among the sources; those parts are
  modelled from the specification and pinned by the in-repo tests).

Protobuf maps (`google::protobuf::Map`) and `absl::flat_hash_map` are
modelled as association lists with insert-or-assign semantics; sets of
keys entering an operation are modelled as lists (the iteration order of the
`absl::flat_hash_set`), with a `Nodup` hypothesis where the set property
matters.  `absl::StatusOr<T>` is modelled as `Except Status T`.
Concurrency is flattened: the joined outcome of each shard's future is an
oracle function from the shard number and its assigned key list to a
`Except Status` result, which the engine folds over in shard order exactly
as the `for (int shard_num = 0; ...)` loops do.
-/

namespace KvServer

/-- `absl::StatusCode` values used by the engine. -/
def kOkCode : Nat := 0

/-- `absl::StatusCode::kInvalidArgument`. -/
def kInvalidArgumentCode : Nat := 3

/-- `absl::StatusCode::kNotFound`. -/
def kNotFoundCode : Nat := 5

/-- `absl::StatusCode::kInternal`. -/
def kInternalCode : Nat := 13

/-- An `absl::Status`: a code together with a message. -/
structure Status where
  code : Nat
  message : String
deriving DecidableEq, Repr

/-- The tagged union `SingleLookupResult` of `lookup.proto`: a single string
value, a string set, a uint32 set, or a per-key error status. -/
inductive SingleLookupResult where
  | value (v : String)
  | keysetValues (values : List String)
  | uintsetValues (values : List Nat)
  | status (s : Status)
deriving DecidableEq, Repr

/-- Association list standing for `google::protobuf::Map` /
`absl::flat_hash_map`: later insertions overwrite the value stored for an
existing key and append fresh keys at the end. -/
abbrev AList (κ ν : Type) : Type := List (κ × ν)

/-- Map lookup (`find`). -/
def alistFind [BEq κ] : AList κ ν → κ → Option ν
  | [], _ => none
  | (k', v) :: rest, k => if k' == k then some v else alistFind rest k

/-- Map insert-or-assign (`map[k] = v` on a protobuf map,
`insert_or_assign` on a `flat_hash_map`). -/
def alistInsert [BEq κ] : AList κ ν → κ → ν → AList κ ν
  | [], k, v => [(k, v)]
  | (k', v') :: rest, k, v =>
    if k' == k then (k, v) :: rest else (k', v') :: alistInsert rest k v

/-- The keys of the map, in insertion order. -/
def alistKeys (m : AList κ ν) : List κ := m.map Prod.fst

/-- The `InternalLookupRequest` proto built for one shard bucket: its key
list and the `lookup_sets` flag.  (The log context and consented debug
config carried by the real request do not influence any claim and are
elided; the serialized length is abstracted by a `serLen` parameter.) -/
structure InternalLookupRequest where
  keys : List String
  lookupSets : Bool
deriving DecidableEq, Repr

/-- `ShardLookupInput` of `sharded_lookup.cc`: the keys assigned to one
shard, the serialized sub-request for those keys, and the padding chosen so
that all sub-requests add up to the same length. -/
structure ShardLookupInput where
  keys : List String
  serializedRequest : InternalLookupRequest
  padding : Nat
deriving DecidableEq, Repr

/-- The `kv_pairs` map of an `InternalLookupResponse`. -/
abbrev InternalLookupResponse := AList String SingleLookupResult

/-- `BucketKeys`: distribute the input keys over `num_shards` buckets
according to the key sharder.  The C++ iterates the key set once and
appends each key to bucket `GetShardNumForKey(key, num_shards)`; bucket
`i` therefore holds, in input order, exactly the keys whose shard number
is `i`.  `serialized_request` and `padding` stay default-initialized. -/
def bucketKeys (numShards : Nat) (shardOf : String → Nat) (keys : List String) :
    List ShardLookupInput :=
  (List.range numShards).map (fun shardNum =>
    { keys := keys.filter (fun k => shardOf k == shardNum),
      serializedRequest := { keys := [], lookupSets := false },
      padding := 0 })

/-- `SerializeShardedRequests`: build the `InternalLookupRequest` of every
bucket (empty buckets included) carrying the bucket's keys and the
`lookup_sets` flag. -/
def serializeShardedRequests (lookupSets : Bool) (lookupInputs : List ShardLookupInput) :
    List ShardLookupInput :=
  lookupInputs.map (fun li =>
    { li with serializedRequest := { keys := li.keys, lookupSets := lookupSets } })

/-- The running maximum of the serialized request sizes, as computed by the
first loop of `ComputePadding` (`max_length` starts at `0`). -/
def maxSerializedLength (serLen : InternalLookupRequest → Nat)
    (lookupInputs : List ShardLookupInput) : Nat :=
  lookupInputs.foldl (fun maxLength li => max maxLength (serLen li.serializedRequest)) 0

/-- `ComputePadding`: set every bucket's padding to
`max_length - serialized_request.size()`. -/
def computePadding (serLen : InternalLookupRequest → Nat)
    (lookupInputs : List ShardLookupInput) : List ShardLookupInput :=
  lookupInputs.map (fun li =>
    { li with padding := maxSerializedLength serLen lookupInputs - serLen li.serializedRequest })

/-- `ShardKeys`: bucket, serialize, pad. -/
def shardKeys (numShards : Nat) (shardOf : String → Nat)
    (serLen : InternalLookupRequest → Nat) (lookupSets : Bool)
    (keys : List String) : List ShardLookupInput :=
  computePadding serLen (serializeShardedRequests lookupSets (bucketKeys numShards shardOf keys))

/-- The status `GetLookupFutures` returns when the shard manager has no
client for some remote shard:
`absl::InternalError("Internal lookup client is unavailable.")`. -/
def lookupClientUnavailableError : Status :=
  { code := kInternalCode, message := "Internal lookup client is unavailable." }

/-- The per-key result `SetRequestFailed` writes for every key of a failed
shard: `Internal` with message `"Data lookup failed"`. -/
def dataLookupFailedResult : SingleLookupResult :=
  .status { code := kInternalCode, message := "Data lookup failed" }

/-- The per-key result for a key absent from a shard's reply (or from the
collected key sets): `NotFound` with no message. -/
def keyNotFoundResult : SingleLookupResult :=
  .status { code := kNotFoundCode, message := "" }

/-- The client-availability check of `GetLookupFutures`: for every shard
number other than the server's own, `shard_manager_.Get(shard_num)` must
return a client; otherwise the whole request fails.  `clientAvailable`
models whether `Get` returns a non-null client. -/
def getLookupFuturesOk (numShards currentShardNum : Nat)
    (clientAvailable : Nat → Bool) : Bool :=
  (List.range numShards).all (fun shardNum =>
    shardNum == currentShardNum || clientAvailable shardNum)

/-- `UpdateResponse`: copy a successful shard's `kv_pairs` into the
aggregated response; a key of the shard's bucket missing from the reply is
recorded as `NotFound`. -/
def updateResponse (keyList : List String) (kvPairs : InternalLookupResponse)
    (response : InternalLookupResponse) : InternalLookupResponse :=
  keyList.foldl (fun resp key =>
    match alistFind kvPairs key with
    | none => alistInsert resp key keyNotFoundResult
    | some r => alistInsert resp key r) response

/-- `SetRequestFailed`: mark every key of a failed shard's bucket with
`Internal("Data lookup failed")` in the aggregated response. -/
def setRequestFailed (keyList : List String) (response : InternalLookupResponse) :
    InternalLookupResponse :=
  keyList.foldl (fun resp key => alistInsert resp key dataLookupFailedResult) response

/-- The joined outcome of every shard's lookup future, indexed by shard
number and the bucket's key list: the local cache lookup for the server's
own shard, `client->GetValues(...)` for a remote shard. -/
abbrev ShardResultOracle := Nat → List String → Except Status InternalLookupResponse

/-- The response-processing loop of `ProcessShardedKeys`: walk the buckets
in shard order, `UpdateResponse` on a successful shard, `SetRequestFailed`
on a failed one. -/
def assembleResponses (shardResult : ShardResultOracle) :
    Nat → List ShardLookupInput → InternalLookupResponse → InternalLookupResponse
  | _, [], response => response
  | shardNum, li :: rest, response =>
    match shardResult shardNum li.keys with
    | .error _ => assembleResponses shardResult (shardNum + 1) rest
        (setRequestFailed li.keys response)
    | .ok result => assembleResponses shardResult (shardNum + 1) rest
        (updateResponse li.keys result response)

/-- `ProcessShardedKeys` (the body of `GetKeyValues`): empty key sets get an
empty response immediately; otherwise shard the keys, check every remote
client, then assemble the per-shard results. -/
def processShardedKeys (numShards currentShardNum : Nat) (clientAvailable : Nat → Bool)
    (shardOf : String → Nat) (serLen : InternalLookupRequest → Nat)
    (shardResult : ShardResultOracle) (keys : List String) :
    Except Status InternalLookupResponse :=
  if keys.isEmpty then .ok []
  else
    let shardLookupInputs := shardKeys numShards shardOf serLen false keys
    if getLookupFuturesOk numShards currentShardNum clientAvailable then
      .ok (assembleResponses shardResult 0 shardLookupInputs [])
    else .error lookupClientUnavailableError

/-- `GetKeyValues` of the sharded lookup delegates to `ProcessShardedKeys`
(the latency recorder has no observable effect on the response). -/
def getKeyValues (numShards currentShardNum : Nat) (clientAvailable : Nat → Bool)
    (shardOf : String → Nat) (serLen : InternalLookupRequest → Nat)
    (shardResult : ShardResultOracle) (keys : List String) :
    Except Status InternalLookupResponse :=
  processShardedKeys numShards currentShardNum clientAvailable shardOf serLen
    shardResult keys

/-- `CollectKeySets<SetElementType>`: walk a shard's reply; every key whose
result is of the expected set variant and whose value set is non-empty is
inserted (insert-or-assign; a collision only logs a metric) into the
collected key-set map.  `extract` is the variant test
(`single_lookup_result_case() == kKeysetValues` resp. `kUintsetValues`). -/
def collectKeySets (extract : SingleLookupResult → Option (List α))
    (keysetsLookupResponse : InternalLookupResponse)
    (keySets : AList String (List α)) : AList String (List α) :=
  keysetsLookupResponse.foldl (fun ks kv =>
    match extract kv.2 with
    | none => ks
    | some valueSet => if valueSet.isEmpty then ks else alistInsert ks kv.1 valueSet) keySets

/-- The response-processing loop of `GetShardedKeyValueSet`: walk the
buckets in shard order; the first failed shard's status is returned as the
request-level error, a successful shard's reply is collected. -/
def collectResponses (extract : SingleLookupResult → Option (List α))
    (shardResult : ShardResultOracle) :
    Nat → List ShardLookupInput → AList String (List α) →
      Except Status (AList String (List α))
  | _, [], keySets => .ok keySets
  | shardNum, li :: rest, keySets =>
    match shardResult shardNum li.keys with
    | .error s => .error s
    | .ok result => collectResponses extract shardResult (shardNum + 1) rest
        (collectKeySets extract result keySets)

/-- `GetShardedKeyValueSet<SetElementType>`: shard the keys with
`lookup_sets = true`, check every remote client, then collect the
per-shard key sets (aborting on the first failed shard). -/
def getShardedKeyValueSet (extract : SingleLookupResult → Option (List α))
    (numShards currentShardNum : Nat) (clientAvailable : Nat → Bool)
    (shardOf : String → Nat) (serLen : InternalLookupRequest → Nat)
    (shardResult : ShardResultOracle) (keySet : List String) :
    Except Status (AList String (List α)) :=
  let shardLookupInputs := shardKeys numShards shardOf serLen true keySet
  if getLookupFuturesOk numShards currentShardNum clientAvailable then
    collectResponses extract shardResult 0 shardLookupInputs []
  else .error lookupClientUnavailableError

/-- `GetKeyValueSets<SetElementType>` (the body of `GetKeyValueSet` and
`GetUInt32ValueSet`): empty key sets get an empty response immediately; a
failure of `GetShardedKeyValueSet` is returned as the request-level status;
otherwise every requested key is answered from the collected key sets,
absent keys as `NotFound`. -/
def getKeyValueSets (extract : SingleLookupResult → Option (List α))
    (inject : List α → SingleLookupResult)
    (numShards currentShardNum : Nat) (clientAvailable : Nat → Bool)
    (shardOf : String → Nat) (serLen : InternalLookupRequest → Nat)
    (shardResult : ShardResultOracle) (keys : List String) :
    Except Status InternalLookupResponse :=
  if keys.isEmpty then .ok []
  else
    match getShardedKeyValueSet extract numShards currentShardNum clientAvailable
        shardOf serLen shardResult keys with
    | .error s => .error s
    | .ok keySets =>
      .ok (keys.foldl (fun resp key =>
        match alistFind keySets key with
        | none => alistInsert resp key keyNotFoundResult
        | some values => alistInsert resp key (inject values)) [])

/-- The variant test of `CollectKeySets<std::string>`. -/
def extractKeysetValues : SingleLookupResult → Option (List String)
  | .keysetValues values => some values
  | _ => none

/-- The variant test of `CollectKeySets<uint32_t>`. -/
def extractUintsetValues : SingleLookupResult → Option (List Nat)
  | .uintsetValues values => some values
  | _ => none

/-- `GetKeyValueSet` = `GetKeyValueSets<std::string>`. -/
def getKeyValueSet (numShards currentShardNum : Nat) (clientAvailable : Nat → Bool)
    (shardOf : String → Nat) (serLen : InternalLookupRequest → Nat)
    (shardResult : ShardResultOracle) (keys : List String) :
    Except Status InternalLookupResponse :=
  getKeyValueSets extractKeysetValues SingleLookupResult.keysetValues numShards
    currentShardNum clientAvailable shardOf serLen shardResult keys

/-- `GetUInt32ValueSet` = `GetKeyValueSets<uint32_t>`. -/
def getUInt32ValueSet (numShards currentShardNum : Nat) (clientAvailable : Nat → Bool)
    (shardOf : String → Nat) (serLen : InternalLookupRequest → Nat)
    (shardResult : ShardResultOracle) (keys : List String) :
    Except Status InternalLookupResponse :=
  getKeyValueSets extractUintsetValues SingleLookupResult.uintsetValues numShards
    currentShardNum clientAvailable shardOf serLen shardResult keys

/-- An `InternalRunQueryResponse`: the flat element list of a set query. -/
structure InternalRunQueryResponse where
  elements : List String
deriving DecidableEq, Repr

/-- An `InternalRunSetQueryIntResponse` (its `elements` field is never
filled by the sharded lookup). -/
structure InternalRunSetQueryIntResponse where
  elements : List Nat
deriving DecidableEq, Repr

/-- Metric names logged through `LogUdfRequestErrorMetric` on the paths a
claim refers to. -/
def kShardedRunQueryEmptyQuery : String := "ShardedRunQueryEmptyQuery"

/-- Metric logged when the query fails to parse. -/
def kShardedRunQueryParsingFailure : String := "ShardedRunQueryParsingFailure"

/-- Metric logged when prefetching the referenced key sets fails. -/
def kShardedRunQueryKeySetRetrievalFailure : String :=
  "ShardedRunQueryKeySetRetrievalFailure"

/-- Metric logged when query evaluation fails. -/
def kShardedRunQueryFailure : String := "ShardedRunQueryFailure"

/-- Modelled from the spec: the query AST produced by the driver/scanner/
parser of `components/query/` (whose sources are not part of this corpus).
Only the identifier leaves (`GetRootNode()->Keys()`) are needed by
`RunQuery`; evaluation is a separate oracle. -/
structure QueryAst where
  keys : List String

/-- The observable outcome of one `RunQuery` call: the returned status-or-
response, whether the engine reached the sharded key-set prefetch (i.e.
touched any shard), and the error metrics logged on the way. -/
structure RunQueryOutcome where
  result : Except Status InternalRunQueryResponse
  lookupPerformed : Bool
  metrics : List String
deriving Repr

/-- `ShardedLookup::RunQuery`.  `parse` abstracts the bison/flex parser
(`parse() == 0` iff `some` AST), `evalQuery` abstracts
`Driver::EvaluateQuery` over the resolver built from the prefetched key
sets; both live outside the sources.  The control flow — empty-query
short-circuit with a metric, `InvalidArgument("Parsing failure.")` on a
parse error before any lookup, prefetch via `GetShardedKeyValueSet`,
resolver substituting the empty set for a missing key set — is that of
`sharded_lookup.cc`. -/
def runQuery (parse : String → Option QueryAst)
    (evalQuery : QueryAst → (String → List String) → Except Status (List String))
    (numShards currentShardNum : Nat) (clientAvailable : Nat → Bool)
    (shardOf : String → Nat) (serLen : InternalLookupRequest → Nat)
    (shardResult : ShardResultOracle) (query : String) : RunQueryOutcome :=
  if query.isEmpty then
    { result := .ok { elements := [] }, lookupPerformed := false,
      metrics := [kShardedRunQueryEmptyQuery] }
  else
    match parse query with
    | none =>
      { result := .error { code := kInvalidArgumentCode, message := "Parsing failure." },
        lookupPerformed := false, metrics := [kShardedRunQueryParsingFailure] }
    | some ast =>
      match getShardedKeyValueSet extractKeysetValues numShards currentShardNum
          clientAvailable shardOf serLen shardResult ast.keys with
      | .error s =>
        { result := .error s, lookupPerformed := true,
          metrics := [kShardedRunQueryKeySetRetrievalFailure] }
      | .ok keysets =>
        match evalQuery ast (fun key => (alistFind keysets key).getD []) with
        | .error s =>
          { result := .error s, lookupPerformed := true,
            metrics := [kShardedRunQueryFailure] }
        | .ok elements =>
          { result := .ok { elements := elements }, lookupPerformed := true,
            metrics := [] }

/-- The `absl::StatusOr<T>` constructor taking an `absl::Status`.  Its
documented contract requires a non-OK status; in optimized builds passing
`absl::OkStatus()` stores `kInternal` with this fixed fallback message
instead (debug builds `CHECK`-fail). -/
def statusOrFromStatus (s : Status) : Except Status α :=
  if s.code = kOkCode then
    .error { code := kInternalCode,
             message := "An OK status is not a valid constructor argument to StatusOr<T>" }
  else .error s

/-- `ShardedLookup::RunSetQueryInt`: the body is
`return absl::OkStatus();` converted into the
`absl::StatusOr<InternalRunSetQueryIntResponse>` return type. -/
def runSetQueryInt (_query : String) : Except Status InternalRunSetQueryIntResponse :=
  statusOrFromStatus { code := kOkCode, message := "" }

/-- `OhttpClientEncryptor` state (per `ohttp_client_encryptor.h`): the
`std::optional` OHTTP client and the retained request context, both empty
until `EncryptRequest` runs.  The cryptographic payloads are opaque here;
only presence matters for the ordering contract. -/
structure OhttpClientEncryptor where
  httpClient : Option Unit
  httpRequestContext : Option Unit
deriving DecidableEq, Repr

/-- `OhttpServerEncryptor` state: the `std::optional` OHTTP gateway and the
retained decrypted request, both empty until `DecryptRequest` runs. -/
structure OhttpServerEncryptor where
  ohttpGateway : Option Unit
  decryptedRequest : Option Unit
deriving DecidableEq, Repr

/-- A freshly constructed client encryptor: no request encrypted yet. -/
def freshClientEncryptor : OhttpClientEncryptor :=
  { httpClient := none, httpRequestContext := none }

/-- A freshly constructed server encryptor: no request decrypted yet. -/
def freshServerEncryptor : OhttpServerEncryptor :=
  { ohttpGateway := none, decryptedRequest := none }

/-- Modelled from the spec: `OhttpClientEncryptor::DecryptResponse` (its
`.cc` is not among the sources).  Per §4.6 the client is stateful and
`decrypt_response` called before `encrypt_request` fails with a fixed,
machine-comparable message; the exact message is pinned by
`ohttp_encryptor_test.cc` (`ClientDecryptResponseFails`).  With the state
present, the outcome is the underlying OHTTP decryption, abstracted as an
oracle. -/
def ohttpClientDecryptResponse (e : OhttpClientEncryptor)
    (decrypt : String → Except Status String) (encryptedPayload : String) :
    Except Status String :=
  if e.httpClient.isNone || e.httpRequestContext.isNone then
    .error { code := kInternalCode,
             message := "Emtpy `http_client_` or `http_request_context_`. You should call `ClientEncryptRequest` first" }
  else decrypt encryptedPayload

/-- Modelled from the spec: `OhttpServerEncryptor::EncryptResponse` (its
`.cc` is not among the sources).  Per §4.6 the server is stateful and
`encrypt_response` called before `decrypt_request` fails with the
symmetric fixed message, pinned by `ohttp_encryptor_test.cc`
(`ServerEncryptResponseFails`). -/
def ohttpServerEncryptResponse (e : OhttpServerEncryptor)
    (encrypt : String → Except Status String) (payload : String) :
    Except Status String :=
  if e.ohttpGateway.isNone || e.decryptedRequest.isNone then
    .error { code := kInternalCode,
             message := "Emtpy `ohttp_gateway_` or `decrypted_request_`. You should call `ServerDecryptRequest` first" }
  else encrypt payload

/-- A partition of a V2 `GetValuesRequest`: its id and the compression
group it belongs to.  The argument list and metadata only parameterize the
UDF call and are folded into the UDF oracle. -/
structure UdfPartition where
  id : Nat
  compressionGroupId : Nat
deriving DecidableEq, Repr

/-- One `compression_group` of a V2 `GetValuesResponse`: the group id and
its content, a JSON array (modelled as the list of the per-partition UDF
outputs it serializes). -/
structure CompressionGroup where
  compressionGroupId : Nat
  content : List String
deriving DecidableEq, Repr

/-- The V2 `GetValuesResponse` oneof: `single_partition` (with either a
`string_output` or an embedded error `status`) or `compression_groups`. -/
inductive GetValuesResponse where
  | singlePartitionOutput (id : Nat) (stringOutput : String)
  | singlePartitionStatus (id : Nat) (status : Status)
  | compressionGroups (groups : List CompressionGroup)
deriving DecidableEq, Repr

/-- Append a successful partition output to its compression group,
creating the group on first use. -/
def addPartitionOutput (groups : AList Nat (List String)) (groupId : Nat)
    (output : String) : AList Nat (List String) :=
  alistInsert groups groupId (((alistFind groups groupId).getD []) ++ [output])

/-- The partition loop of the multi-partition path: walk the partitions in
order, appending each successful UDF output to its compression group's
content and skipping failed partitions. -/
def collectGroups (udf : UdfPartition → Except Status String) :
    List UdfPartition → AList Nat (List String) → AList Nat (List String)
  | partitions, groups0 =>
    partitions.foldl (fun gs p =>
      match udf p with
      | .ok output => addPartitionOutput gs p.compressionGroupId output
      | .error _ => gs) groups0

/-- Modelled from the spec (§4.8 steps 3–4): the multi-partition path of
`GetValuesV2Handler` (its `.cc` is not among the sources).  Partitions are
walked in order; each successful UDF output is appended to its compression
group's content, failed partitions are skipped, and a group with no
successful partition is never created.  When no group remains the request
fails with a single aggregate error whose grpc code is pinned to
`INVALID_ARGUMENT` (3) by the in-repo test
`AllPartitionsFail_ReturnError` (`ASSERT_EQ(http_response_code, 3)`). -/
def processMultiplePartitions (udf : UdfPartition → Except Status String)
    (partitions : List UdfPartition) : Except Status (List CompressionGroup) :=
  if (collectGroups udf partitions []).isEmpty then
    .error { code := kInvalidArgumentCode, message := "All partitions failed" }
  else
    .ok ((collectGroups udf partitions []).map
      (fun g => { compressionGroupId := g.1, content := g.2 }))

/-- Modelled from the spec (§4.8): `GetValuesV2Handler::GetValues`.  An
empty partition list fails with `Internal` (test `NoPartition` expects
grpc `INTERNAL`); on the single-partition legacy path a UDF failure is
embedded as `single_partition.status` and the request succeeds (test
`UdfFailureForOnePartition`); otherwise the multi-partition path runs. -/
def getValues (udf : UdfPartition → Except Status String)
    (partitions : List UdfPartition) (singlePartitionUseCase : Bool) :
    Except Status GetValuesResponse :=
  match partitions with
  | [] => .error { code := kInternalCode, message := "At least 1 partition is required" }
  | p :: _ =>
    if singlePartitionUseCase then
      match udf p with
      | .ok output => .ok (.singlePartitionOutput p.id output)
      | .error s => .ok (.singlePartitionStatus p.id s)
    else
      match processMultiplePartitions udf partitions with
      | .error s => .error s
      | .ok groups => .ok (.compressionGroups groups)

/-- Folding a per-key insertion over a key list (the common shape of
`UpdateResponse`, `SetRequestFailed` and the response loop of
`GetKeyValueSets`). -/
def insertAll [BEq κ] (g : κ → ν) (keyList : List κ) (m : AList κ ν) : AList κ ν :=
  keyList.foldl (fun r key => alistInsert r key (g key)) m

/-- The per-key value `UpdateResponse` stores: the shard's result for the
key, or `NotFound` when the key is absent from the shard's reply. -/
def updateValue (kvPairs : InternalLookupResponse) (key : String) : SingleLookupResult :=
  match alistFind kvPairs key with
  | none => keyNotFoundResult
  | some r => r

/-- The per-key value of the response loop of `GetKeyValueSets`: the
collected set injected into the result variant, or `NotFound`. -/
def setResponseValue (inject : List α → SingleLookupResult)
    (keySets : AList String (List α)) (key : String) : SingleLookupResult :=
  match alistFind keySets key with
  | none => keyNotFoundResult
  | some values => inject values

/-- The key lists of the shard buckets, bucket `i` holding the keys the
sharder maps to shard `i`, in input order. -/
def shardBuckets (numShards : Nat) (shardOf : String → Nat) (keys : List String) :
    List (List String) :=
  (List.range numShards).map (fun shardNum => keys.filter (fun k => shardOf k == shardNum))

/-- Concrete sharder for the S3-style scenario: `key1` lives on shard 1,
everything else on shard 0. -/
def s3ShardOf : String → Nat := fun k => if k == "key1" then 1 else 0

/-- S3-style per-shard outcomes for the single-value lookup: local shard 0
returns `key4 → "value4"`, remote shard 1 fails with deadline-exceeded. -/
def s3KvOracle : ShardResultOracle := fun i _ =>
  if i == 0 then .ok [("key4", SingleLookupResult.value "value4")]
  else .error { code := 4, message := "deadline exceeded" }

/-- S3-style per-shard outcomes for the string-set lookup. -/
def s3SetOracle : ShardResultOracle := fun i _ =>
  if i == 0 then .ok [("key4", SingleLookupResult.keysetValues ["v4"])]
  else .error { code := 4, message := "deadline exceeded" }

/-- S3-style per-shard outcomes for the uint32-set lookup. -/
def s3UintOracle : ShardResultOracle := fun i _ =>
  if i == 0 then .ok [("key4", SingleLookupResult.uintsetValues [4])]
  else .error { code := 4, message := "deadline exceeded" }

/-- The outputs of the successful partitions of one compression group, in
partition order (failed partitions contribute nothing). -/
def successfulOutputs (udf : UdfPartition → Except Status String)
    (partitions : List UdfPartition) (groupId : Nat) : List String :=
  (partitions.filter (fun p => p.compressionGroupId == groupId)).filterMap
    (fun p => (udf p).toOption)

/-- The UDF oracle of the S5-style scenario: partitions 0 and 1 succeed,
partition 2 fails. -/
def exampleMultiPartitionUdf : UdfPartition → Except Status String := fun p =>
  if p.id == 0 then .ok "output0"
  else if p.id == 1 then .ok "output1"
  else .error { code := kInternalCode, message := "UDF execution error" }

/-- The partitions of the S5-style scenario: partitions 0 and 2 in
compression group 0, partition 1 in compression group 1. -/
def exampleMultiPartitions : List UdfPartition :=
  [{ id := 0, compressionGroupId := 0 }, { id := 1, compressionGroupId := 1 },
    { id := 2, compressionGroupId := 0 }]

theorem alistFind_insert_self [BEq κ] [LawfulBEq κ] (m : AList κ ν) (k : κ) (v : ν) :
    alistFind (alistInsert m k v) k = some v := by
  induction m with
  | nil => simp [alistInsert, alistFind]
  | cons hd tl ih =>
    by_cases h : hd.1 == k
    · simp [alistInsert, alistFind, h]
    · simpa [alistInsert, alistFind, h] using ih

theorem alistFind_insert_ne [BEq κ] [LawfulBEq κ] (m : AList κ ν) (k k' : κ) (v : ν)
    (h : k' ≠ k) : alistFind (alistInsert m k v) k' = alistFind m k' := by
  induction m with
  | nil =>
    simp only [alistInsert, alistFind]
    have : (k == k') = false := by
      simp only [beq_eq_false_iff_ne]
      exact fun hk => h hk.symm
    simp [this]
  | cons hd tl ih =>
    by_cases hhd : hd.1 == k
    · have hk : (k == k') = false := by
        simp only [beq_eq_false_iff_ne]
        exact fun hk => h hk.symm
      have hhd' : (hd.1 == k') = false := by
        simp only [beq_eq_false_iff_ne]
        intro he
        exact h (he.symm.trans (eq_of_beq hhd))
      simp [alistInsert, alistFind, hhd, hk, hhd']
    · by_cases hcur : hd.1 == k'
      · simp [alistInsert, alistFind, hhd, hcur]
      · simpa [alistInsert, alistFind, hhd, hcur] using ih

theorem alistKeys_insert_of_mem [BEq κ] [LawfulBEq κ] (m : AList κ ν) (k : κ) (v : ν)
    (h : k ∈ alistKeys m) : alistKeys (alistInsert m k v) = alistKeys m := by
  induction m with
  | nil => simp [alistKeys] at h
  | cons hd tl ih =>
    cases hc : hd.1 == k with
    | true => simp [alistInsert, hc, alistKeys, eq_of_beq hc]
    | false =>
      have hne : hd.1 ≠ k := by
        intro he
        simp [he] at hc
      have hk : k ∈ alistKeys tl := by
        simp only [alistKeys, List.map_cons, List.mem_cons] at h
        rcases h with h | h
        · exact absurd h.symm hne
        · exact h
      simp only [alistKeys, List.map_cons] at ih ⊢
      simp [alistInsert, hc, ih hk]

theorem alistKeys_insert_of_not_mem [BEq κ] [LawfulBEq κ] (m : AList κ ν) (k : κ) (v : ν)
    (h : k ∉ alistKeys m) : alistKeys (alistInsert m k v) = alistKeys m ++ [k] := by
  induction m with
  | nil => simp [alistInsert, alistKeys]
  | cons hd tl ih =>
    have hhd : (hd.1 == k) = false := by
      simp only [beq_eq_false_iff_ne]
      intro he
      exact h (by simp [alistKeys, he])
    have htl : k ∉ alistKeys tl := fun hmem => h (by simp [alistKeys] at hmem ⊢; tauto)
    simp only [alistKeys, List.map_cons] at ih ⊢
    simp [alistInsert, hhd, ih htl]

theorem alistFind_isSome_iff_mem [BEq κ] [LawfulBEq κ] (m : AList κ ν) (k : κ) :
    (alistFind m k).isSome ↔ k ∈ alistKeys m := by
  induction m with
  | nil => simp [alistFind, alistKeys]
  | cons hd tl ih =>
    by_cases hhd : hd.1 == k
    · simp [alistFind, alistKeys, hhd, eq_of_beq hhd]
    · have : hd.1 ≠ k := by simpa using hhd
      simp only [alistFind, hhd, Bool.false_eq_true, if_false, alistKeys, List.map_cons,
        List.mem_cons]
      rw [ih]
      constructor
      · intro hm
        exact Or.inr hm
      · rintro (h | h)
        · exact absurd h.symm this
        · exact h

theorem le_foldl_max_init (f : α → Nat) (l : List α) (b : Nat) :
    b ≤ l.foldl (fun m y => max m (f y)) b := by
  induction l generalizing b with
  | nil => exact Nat.le_refl b
  | cons hd tl ih => exact Nat.le_trans (Nat.le_max_left b (f hd)) (ih (max b (f hd)))

theorem foldl_max_le_of_mem (f : α → Nat) :
    ∀ (l : List α) (a : Nat) (x : α), x ∈ l → f x ≤ l.foldl (fun m y => max m (f y)) a
  | [], _, x, hx => absurd hx (List.not_mem_nil x)
  | hd :: tl, a, x, hx => by
    rcases List.mem_cons.mp hx with h | h
    · subst h
      exact Nat.le_trans (Nat.le_max_right a (f x)) (le_foldl_max_init f tl _)
    · exact foldl_max_le_of_mem f tl (max a (f hd)) x h

/-- C2: for every fan-out prepared by `ShardKeys` over any key set and any
`num_shards > 1`, with `max_len` the maximum serialized sub-request length
over all shard buckets (empty buckets included), every bucket satisfies
`serialized_request.size() + padding == max_len`; in particular all
outbound sub-requests have equal padded length. -/
theorem shardKeys_padding_equalizes (numShards : Nat) (shardOf : String → Nat)
    (serLen : InternalLookupRequest → Nat) (lookupSets : Bool) (keys : List String)
    (_hn : 1 < numShards) :
    (∀ li ∈ shardKeys numShards shardOf serLen lookupSets keys,
      serLen li.serializedRequest + li.padding =
        maxSerializedLength serLen
          (serializeShardedRequests lookupSets (bucketKeys numShards shardOf keys))) ∧
    (∀ li1 ∈ shardKeys numShards shardOf serLen lookupSets keys,
      ∀ li2 ∈ shardKeys numShards shardOf serLen lookupSets keys,
        serLen li1.serializedRequest + li1.padding =
          serLen li2.serializedRequest + li2.padding) := by
  have hmain : ∀ li ∈ shardKeys numShards shardOf serLen lookupSets keys,
      serLen li.serializedRequest + li.padding =
        maxSerializedLength serLen
          (serializeShardedRequests lookupSets (bucketKeys numShards shardOf keys)) := by
    intro li hli
    simp only [shardKeys, computePadding, List.mem_map] at hli
    obtain ⟨pre, hpre, hrest⟩ := hli
    subst hrest
    simp only
    exact Nat.add_sub_cancel'
      (foldl_max_le_of_mem (fun li0 => serLen li0.serializedRequest) _ 0 pre hpre)
  refine ⟨hmain, fun li1 h1 li2 h2 => ?_⟩
  rw [hmain li1 h1, hmain li2 h2]

/-- Witness for C2 at a concrete fan-out: 2 shards, keys bucketed by key
length parity, serialized length modelled as total key length. -/
theorem shardKeys_padding_equalizes_witness :
    1 < 2 ∧
    ((∀ li ∈ shardKeys 2 (fun k => k.length % 2)
        (fun r => (r.keys.map String.length).sum) false ["a", "bb"],
      (fun r => (r.keys.map String.length).sum) li.serializedRequest + li.padding =
        maxSerializedLength (fun r => (r.keys.map String.length).sum)
          (serializeShardedRequests false
            (bucketKeys 2 (fun k => k.length % 2) ["a", "bb"]))) ∧
    (∀ li1 ∈ shardKeys 2 (fun k => k.length % 2)
        (fun r => (r.keys.map String.length).sum) false ["a", "bb"],
      ∀ li2 ∈ shardKeys 2 (fun k => k.length % 2)
          (fun r => (r.keys.map String.length).sum) false ["a", "bb"],
        (fun r => (r.keys.map String.length).sum) li1.serializedRequest + li1.padding =
          (fun r => (r.keys.map String.length).sum) li2.serializedRequest + li2.padding)) :=
  ⟨by decide,
    shardKeys_padding_equalizes 2 (fun k => k.length % 2)
      (fun r => (r.keys.map String.length).sum) false ["a", "bb"] (by decide)⟩

theorem insertAll_find_of_not_mem [BEq κ] [LawfulBEq κ] (g : κ → ν) :
    ∀ (keyList : List κ) (m : AList κ ν) (k : κ), k ∉ keyList →
      alistFind (insertAll g keyList m) k = alistFind m k
  | [], _, _, _ => rfl
  | h :: t, m, k, hk => by
    have hne : k ≠ h := fun he => hk (by simp [he])
    have ht : k ∉ t := fun hmem => hk (by simp [hmem])
    show alistFind (insertAll g t (alistInsert m h (g h))) k = alistFind m k
    rw [insertAll_find_of_not_mem g t _ k ht, alistFind_insert_ne m h k (g h) hne]

theorem insertAll_find_of_mem [BEq κ] [LawfulBEq κ] (g : κ → ν) :
    ∀ (keyList : List κ) (m : AList κ ν) (k : κ), keyList.Nodup → k ∈ keyList →
      alistFind (insertAll g keyList m) k = some (g k)
  | [], _, k, _, hk => absurd hk (List.not_mem_nil k)
  | h :: t, m, k, hnd, hk => by
    rcases List.mem_cons.mp hk with he | hmem
    · subst he
      have ht : k ∉ t := (List.nodup_cons.mp hnd).1
      show alistFind (insertAll g t (alistInsert m k (g k))) k = some (g k)
      rw [insertAll_find_of_not_mem g t _ k ht, alistFind_insert_self m k (g k)]
    · exact insertAll_find_of_mem g t _ k (List.nodup_cons.mp hnd).2 hmem

theorem insertAll_keys [BEq κ] [LawfulBEq κ] (g : κ → ν) :
    ∀ (keyList : List κ) (m : AList κ ν), keyList.Nodup →
      (∀ k ∈ keyList, k ∉ alistKeys m) →
      alistKeys (insertAll g keyList m) = alistKeys m ++ keyList
  | [], m, _, _ => by simp [insertAll]
  | h :: t, m, hnd, hfresh => by
    have hh : h ∉ alistKeys m := hfresh h (by simp)
    have ht : ∀ k ∈ t, k ∉ alistKeys (alistInsert m h (g h)) := by
      intro k hkt
      rw [alistKeys_insert_of_not_mem m h (g h) hh]
      intro hmem
      rcases List.mem_append.mp hmem with hm | hm
      · exact hfresh k (by simp [hkt]) hm
      · have : k = h := by simpa using hm
        exact (List.nodup_cons.mp hnd).1 (this ▸ hkt)
    show alistKeys (insertAll g t (alistInsert m h (g h))) = alistKeys m ++ h :: t
    rw [insertAll_keys g t _ (List.nodup_cons.mp hnd).2 ht,
      alistKeys_insert_of_not_mem m h (g h) hh, List.append_assoc]
    rfl

theorem updateResponse_eq_insertAll (kvPairs : InternalLookupResponse)
    (keyList : List String) (response : InternalLookupResponse) :
    updateResponse keyList kvPairs response =
      insertAll (updateValue kvPairs) keyList response := by
  have hstep : (fun (resp : InternalLookupResponse) key =>
      match alistFind kvPairs key with
      | none => alistInsert resp key keyNotFoundResult
      | some r => alistInsert resp key r) =
      (fun (resp : InternalLookupResponse) key =>
        alistInsert resp key (updateValue kvPairs key)) := by
    funext resp key
    unfold updateValue
    cases alistFind kvPairs key <;> rfl
  unfold updateResponse insertAll
  rw [hstep]

theorem setRequestFailed_eq_insertAll (keyList : List String)
    (response : InternalLookupResponse) :
    setRequestFailed keyList response =
      insertAll (fun _ => dataLookupFailedResult) keyList response := rfl

theorem setResponse_eq_insertAll (inject : List α → SingleLookupResult)
    (keySets : AList String (List α)) (keys : List String)
    (response : InternalLookupResponse) :
    keys.foldl (fun resp key =>
      match alistFind keySets key with
      | none => alistInsert resp key keyNotFoundResult
      | some values => alistInsert resp key (inject values)) response =
      insertAll (setResponseValue inject keySets) keys response := by
  have hstep : (fun (resp : InternalLookupResponse) key =>
      match alistFind keySets key with
      | none => alistInsert resp key keyNotFoundResult
      | some values => alistInsert resp key (inject values)) =
      (fun (resp : InternalLookupResponse) key =>
        alistInsert resp key (setResponseValue inject keySets key)) := by
    funext resp key
    unfold setResponseValue
    cases alistFind keySets key <;> rfl
  unfold insertAll
  rw [hstep]

theorem shardKeys_map_keys (numShards : Nat) (shardOf : String → Nat)
    (serLen : InternalLookupRequest → Nat) (lookupSets : Bool) (keys : List String) :
    (shardKeys numShards shardOf serLen lookupSets keys).map (fun li => li.keys) =
      shardBuckets numShards shardOf keys := by
  unfold shardKeys computePadding serializeShardedRequests bucketKeys shardBuckets
  simp [List.map_map, Function.comp]

theorem shardKeys_length (numShards : Nat) (shardOf : String → Nat)
    (serLen : InternalLookupRequest → Nat) (lookupSets : Bool) (keys : List String) :
    (shardKeys numShards shardOf serLen lookupSets keys).length = numShards := by
  unfold shardKeys computePadding serializeShardedRequests bucketKeys
  simp

theorem nodup_flatten_shardBuckets (numShards : Nat) (shardOf : String → Nat)
    (keys : List String) (hnodup : keys.Nodup) :
    (List.flatten (shardBuckets numShards shardOf keys)).Nodup := by
  rw [List.nodup_flatten]
  constructor
  · intro l hl
    simp only [shardBuckets, List.mem_map] at hl
    obtain ⟨i, _, rfl⟩ := hl
    exact hnodup.filter _
  · unfold shardBuckets
    rw [List.pairwise_map]
    refine (List.pairwise_lt_range numShards).imp ?_
    intro i j hij a hai haj
    have hi : shardOf a = i := by simpa using (List.mem_filter.mp hai).2
    have hj : shardOf a = j := by simpa using (List.mem_filter.mp haj).2
    exact absurd (hi ▸ hj) (Nat.ne_of_lt hij)

theorem sum_map_range_ite (x c : Nat) :
    ∀ n : Nat, (((List.range n).map (fun i => if x = i then c else 0)).sum) =
      if x < n then c else 0
  | 0 => by simp
  | n + 1 => by
    rw [List.range_succ, List.map_append, List.sum_append, sum_map_range_ite x c n]
    by_cases h : x < n
    · have hne : x ≠ n := Nat.ne_of_lt h
      have hlt : x < n + 1 := Nat.lt_succ_of_lt h
      simp [h, hne, hlt]
    · by_cases he : x = n
      · have hlt : x < n + 1 := by omega
        simp [h, he, hlt]
      · have hnlt : ¬x < n + 1 := by omega
        simp [h, he, hnlt]

theorem flatten_shardBuckets_perm (numShards : Nat) (shardOf : String → Nat)
    (keys : List String) (hrange : ∀ k ∈ keys, shardOf k < numShards) :
    List.Perm (List.flatten (shardBuckets numShards shardOf keys)) keys := by
  rw [List.perm_iff_count]
  intro a
  rw [List.count_flatten]
  unfold shardBuckets
  rw [List.map_map]
  have hentry : ∀ i ∈ List.range numShards,
      (List.count a ∘ fun shardNum => keys.filter (fun k => shardOf k == shardNum)) i =
        (fun i => if shardOf a = i then List.count a keys else 0) i := by
    intro i _
    simp only [Function.comp]
    by_cases h : shardOf a = i
    · rw [if_pos h, List.count_filter (by simp [h])]
    · rw [if_neg h, List.count_eq_zero]
      intro hmem2
      exact h (by simpa using (List.mem_filter.mp hmem2).2)
  rw [List.map_congr_left hentry]
  have hsum : ∀ i, (if shardOf a = i then List.count a keys else 0) =
      (if (shardOf a) = i then List.count a keys else 0) := fun _ => rfl
  rw [sum_map_range_ite (shardOf a) (List.count a keys) numShards]
  by_cases hmem : a ∈ keys
  · rw [if_pos (hrange a hmem)]
  · have h0 : List.count a keys = 0 := List.count_eq_zero.mpr hmem
    rw [h0]
    by_cases h : shardOf a < numShards <;> simp [h]

theorem assembleResponses_cons (f : ShardResultOracle) (i : Nat) (b : ShardLookupInput)
    (rest : List ShardLookupInput) (resp : InternalLookupResponse) :
    assembleResponses f i (b :: rest) resp =
      (match f i b.keys with
       | .error _ => assembleResponses f (i + 1) rest (setRequestFailed b.keys resp)
       | .ok result => assembleResponses f (i + 1) rest (updateResponse b.keys result resp)) :=
  rfl

theorem assembleResponses_find_of_not_mem (f : ShardResultOracle) :
    ∀ (buckets : List ShardLookupInput) (i : Nat) (resp : InternalLookupResponse)
      (k : String), k ∉ List.flatten (buckets.map (fun li => li.keys)) →
      alistFind (assembleResponses f i buckets resp) k = alistFind resp k
  | [], _, _, _, _ => rfl
  | b :: rest, i, resp, k, hk => by
    have hkb : k ∉ b.keys := fun h => hk (by simp [h])
    have hkrest : k ∉ List.flatten (rest.map (fun li => li.keys)) :=
      fun h => hk (by simp [h])
    cases hf : f i b.keys with
    | error e =>
      simp only [assembleResponses_cons, hf]
      rw [assembleResponses_find_of_not_mem f rest (i + 1) _ k hkrest,
        setRequestFailed_eq_insertAll, insertAll_find_of_not_mem _ _ _ _ hkb]
    | ok kv =>
      simp only [assembleResponses_cons, hf]
      rw [assembleResponses_find_of_not_mem f rest (i + 1) _ k hkrest,
        updateResponse_eq_insertAll, insertAll_find_of_not_mem _ _ _ _ hkb]

theorem assembleResponses_find_of_mem (f : ShardResultOracle) :
    ∀ (buckets : List ShardLookupInput) (i : Nat) (resp : InternalLookupResponse)
      (j : Nat) (hj : j < buckets.length) (k : String),
      (List.flatten (buckets.map (fun li => li.keys))).Nodup →
      k ∈ (buckets.get ⟨j, hj⟩).keys →
      alistFind (assembleResponses f i buckets resp) k =
        (match f (i + j) (buckets.get ⟨j, hj⟩).keys with
         | .error _ => some dataLookupFailedResult
         | .ok kv => some (updateValue kv k))
  | [], _, _, j, hj, _, _, _ => absurd hj (by simp)
  | b :: rest, i, resp, 0, _, k, hnd, hkmem => by
    have hsplit := List.nodup_append.mp (by
      simpa using hnd : (b.keys ++ List.flatten (rest.map (fun li => li.keys))).Nodup)
    have hkb : k ∈ b.keys := hkmem
    have hkrest : k ∉ List.flatten (rest.map (fun li => li.keys)) :=
      hsplit.2.2 hkb
    cases hf : f i b.keys with
    | error e =>
      simp only [assembleResponses_cons, hf]
      rw [assembleResponses_find_of_not_mem f rest (i + 1) _ k hkrest,
        setRequestFailed_eq_insertAll,
        insertAll_find_of_mem _ _ _ _ hsplit.1 hkb]
      simp [Nat.add_zero, hf]
    | ok kv =>
      simp only [assembleResponses_cons, hf]
      rw [assembleResponses_find_of_not_mem f rest (i + 1) _ k hkrest,
        updateResponse_eq_insertAll,
        insertAll_find_of_mem _ _ _ _ hsplit.1 hkb]
      simp [Nat.add_zero, hf]
  | b :: rest, i, resp, j + 1, hj, k, hnd, hkmem => by
    have hndrest : (List.flatten (rest.map (fun li => li.keys))).Nodup :=
      (List.nodup_append.mp (by
        simpa using hnd :
          (b.keys ++ List.flatten (rest.map (fun li => li.keys))).Nodup)).2.1
    have hjr : j < rest.length := Nat.lt_of_succ_lt_succ hj
    have hget : (b :: rest).get ⟨j + 1, hj⟩ = rest.get ⟨j, hjr⟩ := rfl
    have harith : i + (j + 1) = (i + 1) + j := by omega
    cases hf : f i b.keys with
    | error e =>
      simp only [assembleResponses_cons, hf]
      rw [hget, harith]
      exact assembleResponses_find_of_mem f rest (i + 1) _ j hjr k hndrest hkmem
    | ok kv =>
      simp only [assembleResponses_cons, hf]
      rw [hget, harith]
      exact assembleResponses_find_of_mem f rest (i + 1) _ j hjr k hndrest hkmem

theorem assembleResponses_keys (f : ShardResultOracle) :
    ∀ (buckets : List ShardLookupInput) (i : Nat) (resp : InternalLookupResponse),
      (List.flatten (buckets.map (fun li => li.keys))).Nodup →
      (∀ k ∈ List.flatten (buckets.map (fun li => li.keys)), k ∉ alistKeys resp) →
      alistKeys (assembleResponses f i buckets resp) =
        alistKeys resp ++ List.flatten (buckets.map (fun li => li.keys))
  | [], _, resp, _, _ => by simp [assembleResponses]
  | b :: rest, i, resp, hnd, hfresh => by
    have hflat : List.flatten ((b :: rest).map (fun li => li.keys)) =
        b.keys ++ List.flatten (rest.map (fun li => li.keys)) := by simp
    have hsplit := List.nodup_append.mp (hflat ▸ hnd)
    have hfreshb : ∀ k ∈ b.keys, k ∉ alistKeys resp := by
      intro k hk
      exact hfresh k (hflat ▸ List.mem_append_left _ hk)
    have hfreshrest : ∀ resp2 : InternalLookupResponse,
        alistKeys resp2 = alistKeys resp ++ b.keys →
        ∀ k ∈ List.flatten (rest.map (fun li => li.keys)), k ∉ alistKeys resp2 := by
      intro resp2 hkeys k hk hmem
      rw [hkeys] at hmem
      rcases List.mem_append.mp hmem with hm | hm
      · exact hfresh k (hflat ▸ List.mem_append_right _ hk) hm
      · exact hsplit.2.2 hm hk
    cases hf : f i b.keys with
    | error e =>
      simp only [assembleResponses_cons, hf]
      have hstep : alistKeys (setRequestFailed b.keys resp) = alistKeys resp ++ b.keys := by
        rw [setRequestFailed_eq_insertAll, insertAll_keys _ _ _ hsplit.1 hfreshb]
      rw [assembleResponses_keys f rest (i + 1) _ hsplit.2.1 (hfreshrest _ hstep),
        hstep, hflat, List.append_assoc]
    | ok kv =>
      simp only [assembleResponses_cons, hf]
      have hstep : alistKeys (updateResponse b.keys kv resp) = alistKeys resp ++ b.keys := by
        rw [updateResponse_eq_insertAll, insertAll_keys _ _ _ hsplit.1 hfreshb]
      rw [assembleResponses_keys f rest (i + 1) _ hsplit.2.1 (hfreshrest _ hstep),
        hstep, hflat, List.append_assoc]

theorem processShardedKeys_ok_keys (numShards currentShardNum : Nat)
    (clientAvailable : Nat → Bool) (shardOf : String → Nat)
    (serLen : InternalLookupRequest → Nat) (shardResult : ShardResultOracle)
    (keys : List String) (hnodup : keys.Nodup)
    (hrange : ∀ k ∈ keys, shardOf k < numShards) (r : InternalLookupResponse)
    (hok : processShardedKeys numShards currentShardNum clientAvailable shardOf
      serLen shardResult keys = .ok r) :
    List.Perm (alistKeys r) keys := by
  unfold processShardedKeys at hok
  by_cases hemp : keys.isEmpty
  · rw [if_pos hemp] at hok
    cases hok
    rw [List.isEmpty_iff.mp hemp]
    exact List.Perm.refl _
  · rw [if_neg hemp] at hok
    by_cases hava : getLookupFuturesOk numShards currentShardNum clientAvailable
    · rw [if_pos hava] at hok
      cases hok
      have hmapkeys := shardKeys_map_keys numShards shardOf serLen false keys
      have hnd : (List.flatten ((shardKeys numShards shardOf serLen false keys).map
          (fun li => li.keys))).Nodup := by
        rw [hmapkeys]
        exact nodup_flatten_shardBuckets numShards shardOf keys hnodup
      have hkeys := assembleResponses_keys shardResult
        (shardKeys numShards shardOf serLen false keys) 0 [] hnd
        (by intro k _ hmem; simp [alistKeys] at hmem)
      rw [hkeys, hmapkeys]
      simpa using flatten_shardBuckets_perm numShards shardOf keys hrange
    · rw [if_neg hava] at hok
      cases hok

theorem getKeyValueSets_ok_keys (extract : SingleLookupResult → Option (List α))
    (inject : List α → SingleLookupResult) (numShards currentShardNum : Nat)
    (clientAvailable : Nat → Bool) (shardOf : String → Nat)
    (serLen : InternalLookupRequest → Nat) (shardResult : ShardResultOracle)
    (keys : List String) (hnodup : keys.Nodup) (r : InternalLookupResponse)
    (hok : getKeyValueSets extract inject numShards currentShardNum clientAvailable
      shardOf serLen shardResult keys = .ok r) :
    alistKeys r = keys := by
  unfold getKeyValueSets at hok
  by_cases hemp : keys.isEmpty
  · rw [if_pos hemp] at hok
    cases hok
    rw [List.isEmpty_iff.mp hemp]
    rfl
  · rw [if_neg hemp] at hok
    cases hks : getShardedKeyValueSet extract numShards currentShardNum
        clientAvailable shardOf serLen shardResult keys with
    | error s =>
      rw [hks] at hok
      cases hok
    | ok keySets =>
      rw [hks] at hok
      cases hok
      rw [setResponse_eq_insertAll,
        insertAll_keys _ _ _ hnodup (by intro k _ hmem; simp [alistKeys] at hmem)]
      rfl

/-- C1: for every non-empty key set and `num_shards > 1`, a successful
sharded lookup — `GetKeyValues`, `GetKeyValueSet` or `GetUInt32ValueSet` —
returns a response whose key set equals the requested keys exactly: every
requested key is mapped to exactly one `SingleLookupResult`, with no
duplicates and no omitted or extra keys (the response's key list is a
permutation of the requested key list). -/
theorem sharded_lookup_response_keys_exact (numShards currentShardNum : Nat)
    (clientAvailable : Nat → Bool) (shardOf : String → Nat)
    (serLen : InternalLookupRequest → Nat)
    (shardResultKV shardResultSet shardResultUint : ShardResultOracle)
    (keys : List String) (hnodup : keys.Nodup)
    (hrange : ∀ k ∈ keys, shardOf k < numShards)
    (_hne : keys ≠ []) (_hn : 1 < numShards) :
    (∀ r, getKeyValues numShards currentShardNum clientAvailable shardOf serLen
      shardResultKV keys = .ok r → List.Perm (alistKeys r) keys) ∧
    (∀ r, getKeyValueSet numShards currentShardNum clientAvailable shardOf serLen
      shardResultSet keys = .ok r → List.Perm (alistKeys r) keys) ∧
    (∀ r, getUInt32ValueSet numShards currentShardNum clientAvailable shardOf serLen
      shardResultUint keys = .ok r → List.Perm (alistKeys r) keys) := by
  refine ⟨fun r hok => ?_, fun r hok => ?_, fun r hok => ?_⟩
  · exact processShardedKeys_ok_keys numShards currentShardNum clientAvailable
      shardOf serLen shardResultKV keys hnodup hrange r hok
  · rw [getKeyValueSets_ok_keys extractKeysetValues SingleLookupResult.keysetValues
      numShards currentShardNum clientAvailable shardOf serLen shardResultSet keys
      hnodup r hok]
  · rw [getKeyValueSets_ok_keys extractUintsetValues SingleLookupResult.uintsetValues
      numShards currentShardNum clientAvailable shardOf serLen shardResultUint keys
      hnodup r hok]

/-- Witness for C1 at a concrete two-shard lookup over keys
`["a", "bb"]`. -/
theorem sharded_lookup_response_keys_exact_witness :
    (["a", "bb"] : List String).Nodup ∧
    (∀ k ∈ (["a", "bb"] : List String), (fun (s : String) => s.length % 2) k < 2) ∧
    (["a", "bb"] : List String) ≠ [] ∧ 1 < 2 ∧
    ((∀ r, getKeyValues 2 0 (fun _ => true) (fun s => s.length % 2) (fun _ => 0)
      (fun _ ks => .ok (ks.map (fun k => (k, SingleLookupResult.value k))))
      ["a", "bb"] = .ok r → List.Perm (alistKeys r) ["a", "bb"]) ∧
    (∀ r, getKeyValueSet 2 0 (fun _ => true) (fun s => s.length % 2) (fun _ => 0)
      (fun _ ks => .ok (ks.map (fun k => (k, SingleLookupResult.keysetValues [k]))))
      ["a", "bb"] = .ok r → List.Perm (alistKeys r) ["a", "bb"]) ∧
    (∀ r, getUInt32ValueSet 2 0 (fun _ => true) (fun s => s.length % 2) (fun _ => 0)
      (fun _ ks => .ok (ks.map (fun k => (k, SingleLookupResult.uintsetValues [7]))))
      ["a", "bb"] = .ok r → List.Perm (alistKeys r) ["a", "bb"])) :=
  ⟨by decide, by decide, by decide, by decide,
    sharded_lookup_response_keys_exact 2 0 (fun _ => true) (fun s => s.length % 2)
      (fun _ => 0)
      (fun _ ks => .ok (ks.map (fun k => (k, SingleLookupResult.value k))))
      (fun _ ks => .ok (ks.map (fun k => (k, SingleLookupResult.keysetValues [k]))))
      (fun _ ks => .ok (ks.map (fun k => (k, SingleLookupResult.uintsetValues [7]))))
      ["a", "bb"] (by decide) (by decide) (by decide) (by decide)⟩

/-- C10: for the empty key set, `GetKeyValues`, `GetKeyValueSet` and
`GetUInt32ValueSet` each return a successful empty response immediately,
for every shard-manager state (`clientAvailable` is universally
quantified, so in particular the empty lookup succeeds when every remote
shard client is unavailable) and every shard-result oracle. -/
theorem empty_lookup_short_circuits (numShards currentShardNum : Nat)
    (clientAvailable : Nat → Bool) (shardOf : String → Nat)
    (serLen : InternalLookupRequest → Nat)
    (shardResultKV shardResultSet shardResultUint : ShardResultOracle) :
    getKeyValues numShards currentShardNum clientAvailable shardOf serLen
      shardResultKV [] = .ok [] ∧
    getKeyValueSet numShards currentShardNum clientAvailable shardOf serLen
      shardResultSet [] = .ok [] ∧
    getUInt32ValueSet numShards currentShardNum clientAvailable shardOf serLen
      shardResultUint [] = .ok [] :=
  ⟨rfl, rfl, rfl⟩

theorem getLookupFuturesOk_eq_false (numShards currentShardNum : Nat)
    (clientAvailable : Nat → Bool)
    (hmiss : ∃ i, i < numShards ∧ i ≠ currentShardNum ∧ clientAvailable i = false) :
    getLookupFuturesOk numShards currentShardNum clientAvailable = false := by
  obtain ⟨i, hi, hne, hfalse⟩ := hmiss
  unfold getLookupFuturesOk
  rw [List.all_eq_false]
  refine ⟨i, List.mem_range.mpr hi, ?_⟩
  simp [hne, hfalse]

/-- C6 counterexample: when the shard manager has no client for a remote
shard, the error returned carries the message
`"Internal lookup client is unavailable."`, not the spec's
`"lookup client unavailable"`. -/
theorem lookup_client_missing_message_counterexample :
    processShardedKeys 2 0 (fun _ => false) (fun _ => 0) (fun _ => 0)
      (fun _ _ => .ok []) ["a"] =
      .error { code := kInternalCode,
               message := "Internal lookup client is unavailable." } ∧
    "Internal lookup client is unavailable." ≠ "lookup client unavailable" :=
  ⟨rfl, by decide⟩

/-- C6 (amended): for every sharded lookup over a non-empty key set, if the
shard manager returns no client for some remote shard, the whole request
fails with the request-level error
`Internal("Internal lookup client is unavailable.")` and no partial
per-key response is produced. -/
theorem lookup_client_missing_fails_request (numShards currentShardNum : Nat)
    (clientAvailable : Nat → Bool) (shardOf : String → Nat)
    (serLen : InternalLookupRequest → Nat)
    (shardResultKV shardResultSet shardResultUint : ShardResultOracle)
    (keys : List String) (hne : keys ≠ [])
    (hmiss : ∃ i, i < numShards ∧ i ≠ currentShardNum ∧ clientAvailable i = false) :
    getKeyValues numShards currentShardNum clientAvailable shardOf serLen
      shardResultKV keys = .error lookupClientUnavailableError ∧
    getKeyValueSet numShards currentShardNum clientAvailable shardOf serLen
      shardResultSet keys = .error lookupClientUnavailableError ∧
    getUInt32ValueSet numShards currentShardNum clientAvailable shardOf serLen
      shardResultUint keys = .error lookupClientUnavailableError := by
  have hempty : keys.isEmpty = false := by
    rw [Bool.eq_false_iff]
    intro h
    exact hne (List.isEmpty_iff.mp h)
  have hava := getLookupFuturesOk_eq_false numShards currentShardNum clientAvailable hmiss
  refine ⟨?_, ?_, ?_⟩
  · unfold getKeyValues processShardedKeys
    rw [hempty]
    simp only [Bool.false_eq_true, if_false, hava]
  · unfold getKeyValueSet getKeyValueSets getShardedKeyValueSet
    rw [hempty]
    simp only [Bool.false_eq_true, if_false, hava]
  · unfold getUInt32ValueSet getKeyValueSets getShardedKeyValueSet
    rw [hempty]
    simp only [Bool.false_eq_true, if_false, hava]

/-- Witness for the amended C6 at a concrete configuration: two shards,
server is shard 0, no client for shard 1, one requested key. -/
theorem lookup_client_missing_fails_request_witness :
    (["a"] : List String) ≠ [] ∧
    (∃ i, i < 2 ∧ i ≠ 0 ∧ (fun (_ : Nat) => false) i = false) ∧
    (getKeyValues 2 0 (fun _ => false) (fun _ => 0) (fun _ => 0)
      (fun _ _ => .ok []) ["a"] = .error lookupClientUnavailableError ∧
    getKeyValueSet 2 0 (fun _ => false) (fun _ => 0) (fun _ => 0)
      (fun _ _ => .ok []) ["a"] = .error lookupClientUnavailableError ∧
    getUInt32ValueSet 2 0 (fun _ => false) (fun _ => 0) (fun _ => 0)
      (fun _ _ => .ok []) ["a"] = .error lookupClientUnavailableError) :=
  ⟨by decide, ⟨1, by decide, by decide, rfl⟩,
    lookup_client_missing_fails_request 2 0 (fun _ => false) (fun _ => 0) (fun _ => 0)
      (fun _ _ => .ok []) (fun _ _ => .ok []) (fun _ _ => .ok []) ["a"]
      (by decide) ⟨1, by decide, by decide, rfl⟩⟩

/-- C7: `RunQuery` on the empty query string returns a successful empty
result, records the empty-query metric and performs no lookup; on any
query the parser rejects, it returns `InvalidArgument("Parsing failure.")`
without performing any lookup. -/
theorem runQuery_empty_and_parse_failure (parse : String → Option QueryAst)
    (evalQuery : QueryAst → (String → List String) → Except Status (List String))
    (numShards currentShardNum : Nat) (clientAvailable : Nat → Bool)
    (shardOf : String → Nat) (serLen : InternalLookupRequest → Nat)
    (shardResult : ShardResultOracle) :
    runQuery parse evalQuery numShards currentShardNum clientAvailable shardOf
      serLen shardResult "" =
      { result := .ok { elements := [] }, lookupPerformed := false,
        metrics := [kShardedRunQueryEmptyQuery] } ∧
    (∀ query, query ≠ "" → parse query = none →
      runQuery parse evalQuery numShards currentShardNum clientAvailable shardOf
        serLen shardResult query =
        { result := .error { code := kInvalidArgumentCode, message := "Parsing failure." },
          lookupPerformed := false, metrics := [kShardedRunQueryParsingFailure] }) := by
  refine ⟨rfl, fun query hq hparse => ?_⟩
  have hempty : query.isEmpty = false := by
    rw [Bool.eq_false_iff]
    intro h
    exact hq ((String.isEmpty_iff query).mp h)
  unfold runQuery
  rw [hempty, hparse]
  rfl

/-- Witness for C7 at a parser that rejects the concrete query `"(("`. -/
theorem runQuery_empty_and_parse_failure_witness :
    ("((" : String) ≠ "" ∧ (fun (_ : String) => (none : Option QueryAst)) "((" = none ∧
    (runQuery (fun _ => none) (fun _ _ => .ok []) 2 0 (fun _ => true) (fun _ => 0)
      (fun _ => 0) (fun _ _ => .ok []) "" =
      { result := .ok { elements := [] }, lookupPerformed := false,
        metrics := [kShardedRunQueryEmptyQuery] }) ∧
    (runQuery (fun _ => none) (fun _ _ => .ok []) 2 0 (fun _ => true) (fun _ => 0)
      (fun _ => 0) (fun _ _ => .ok []) "((" =
      { result := .error { code := kInvalidArgumentCode, message := "Parsing failure." },
        lookupPerformed := false, metrics := [kShardedRunQueryParsingFailure] }) :=
  ⟨by decide, rfl,
    (runQuery_empty_and_parse_failure (fun _ => none) (fun _ _ => .ok []) 2 0
      (fun _ => true) (fun _ => 0) (fun _ => 0) (fun _ _ => .ok [])).1,
    (runQuery_empty_and_parse_failure (fun _ => none) (fun _ _ => .ok []) 2 0
      (fun _ => true) (fun _ => 0) (fun _ => 0) (fun _ _ => .ok [])).2
      "((" (by decide) rfl⟩

/-- C8: on a fresh OHTTP client encryptor, `DecryptResponse` before any
`EncryptRequest` fails with the fixed message naming the empty
`http_client_`/`http_request_context_`; symmetrically a fresh server
encryptor's `EncryptResponse` before `DecryptRequest` fails with the fixed
message naming the empty `ohttp_gateway_`/`decrypted_request_`. -/
theorem ohttp_order_violation_messages (decrypt encrypt : String → Except Status String)
    (clientPayload serverPayload : String) :
    ohttpClientDecryptResponse freshClientEncryptor decrypt clientPayload =
      .error { code := kInternalCode,
               message := "Emtpy `http_client_` or `http_request_context_`. You should call `ClientEncryptRequest` first" } ∧
    ohttpServerEncryptResponse freshServerEncryptor encrypt serverPayload =
      .error { code := kInternalCode,
               message := "Emtpy `ohttp_gateway_` or `decrypted_request_`. You should call `ServerDecryptRequest` first" } :=
  ⟨rfl, rfl⟩

/-- C9 (evaluating the code at the failing input): `RunSetQueryInt` never
returns a successful empty response: for every query its
`return absl::OkStatus()` body yields, via the `StatusOr` constructor's
fallback for OK statuses, an error with code `kInternal`, contradicting
the claimed OK-with-empty-body behavior. -/
theorem runSetQueryInt_returns_internal_error (query : String) :
    runSetQueryInt query =
      .error { code := kInternalCode,
               message := "An OK status is not a valid constructor argument to StatusOr<T>" } ∧
    ∀ r : InternalRunSetQueryIntResponse, runSetQueryInt query ≠ .ok r :=
  ⟨rfl, fun _ h => Except.noConfusion h⟩

theorem collectResponses_cons (extract : SingleLookupResult → Option (List α))
    (f : ShardResultOracle) (i : Nat) (b : ShardLookupInput)
    (rest : List ShardLookupInput) (keySets : AList String (List α)) :
    collectResponses extract f i (b :: rest) keySets =
      (match f i b.keys with
       | .error s => .error s
       | .ok result => collectResponses extract f (i + 1) rest
           (collectKeySets extract result keySets)) :=
  rfl

theorem collectResponses_error (extract : SingleLookupResult → Option (List α))
    (f : ShardResultOracle) :
    ∀ (buckets : List ShardLookupInput) (i : Nat) (keySets : AList String (List α)),
      (∃ j : Fin buckets.length, ∃ s, f (i + j.val) (buckets.get j).keys = .error s) →
      ∃ s, collectResponses extract f i buckets keySets = .error s
  | [], _, _, h => absurd h (by rintro ⟨⟨_, hj⟩, _⟩; simp at hj)
  | b :: rest, i, keySets, h => by
    cases hf : f i b.keys with
    | error s =>
      refine ⟨s, ?_⟩
      rw [collectResponses_cons, hf]
    | ok result =>
      obtain ⟨⟨jv, hjv⟩, s, hjs⟩ := h
      cases jv with
      | zero =>
        rw [Nat.add_zero] at hjs
        rw [show ((b :: rest).get ⟨0, hjv⟩) = b from rfl] at hjs
        rw [hf] at hjs
        cases hjs
      | succ jv2 =>
        have hjv2 : jv2 < rest.length := Nat.lt_of_succ_lt_succ hjv
        have hrec := collectResponses_error extract f rest (i + 1)
          (collectKeySets extract result keySets)
          ⟨⟨jv2, hjv2⟩, s, by
            rw [show ((i + 1) + jv2) = i + (jv2 + 1) by omega]
            exact hjs⟩
        obtain ⟨s2, hs2⟩ := hrec
        refine ⟨s2, ?_⟩
        rw [collectResponses_cons, hf]
        exact hs2

theorem shardKeys_get_keys (numShards : Nat) (shardOf : String → Nat)
    (serLen : InternalLookupRequest → Nat) (lookupSets : Bool) (keys : List String)
    (j : Nat) (hj : j < (shardKeys numShards shardOf serLen lookupSets keys).length) :
    ((shardKeys numShards shardOf serLen lookupSets keys).get ⟨j, hj⟩).keys =
      keys.filter (fun k => shardOf k == j) := by
  have hjm : j < ((shardKeys numShards shardOf serLen lookupSets keys).map
      (fun li => li.keys)).length := by simpa using hj
  have h1 : ((shardKeys numShards shardOf serLen lookupSets keys).map
      (fun li => li.keys))[j] =
      ((shardKeys numShards shardOf serLen lookupSets keys).get ⟨j, hj⟩).keys := by
    rw [List.getElem_map, List.get_eq_getElem]
  have h2 := List.getElem_of_eq
    (shardKeys_map_keys numShards shardOf serLen lookupSets keys) hjm
  rw [← h1, h2]
  have hjr : j < (List.range numShards).length := by
    rw [List.length_range]
    have hlen := shardKeys_length numShards shardOf serLen lookupSets keys
    omega
  unfold shardBuckets
  rw [List.getElem_map, List.getElem_range]

/-- C3 counterexample: a set-valued sharded lookup (`GetKeyValueSet`) whose
remote shard 1 fails after successful dispatch does not mark that shard's
keys with `Internal("Data lookup failed")`; it propagates the shard's
status (`DEADLINE_EXCEEDED` here) as a request-level error, refuting the
claim for the set-valued operations. -/
theorem shard_failure_set_lookup_counterexample :
    getKeyValueSet 2 0 (fun _ => true) (fun k => if k == "key1" then 1 else 0)
      (fun _ => 0)
      (fun i _ => if i == 0 then .ok [("key4", SingleLookupResult.keysetValues ["v4"])]
        else .error { code := 4, message := "deadline exceeded" })
      ["key1", "key4"] =
      .error { code := 4, message := "deadline exceeded" } := rfl

/-- C3 (amended): when one shard's sub-request fails after dispatch
succeeded, the single-value lookup (`GetKeyValues`) marks every key
assigned to that shard with `Internal("Data lookup failed")`, keeps the
per-key results of the successful shards, and returns the response with no
request-level error; the set-valued lookups (`GetKeyValueSet`,
`GetUInt32ValueSet`) instead propagate a shard failure as a request-level
error. -/
theorem shard_failure_partial_kv_request_error_sets
    (numShards currentShardNum : Nat) (clientAvailable : Nat → Bool)
    (shardOf : String → Nat) (serLen : InternalLookupRequest → Nat)
    (shardResultKV shardResultSet shardResultUint : ShardResultOracle)
    (keys : List String) (hnodup : keys.Nodup)
    (hava : getLookupFuturesOk numShards currentShardNum clientAvailable = true)
    (hne : keys ≠ []) :
    (∃ resp, processShardedKeys numShards currentShardNum clientAvailable shardOf
        serLen shardResultKV keys = .ok resp ∧
      ∀ i, i < numShards → ∀ k ∈ keys.filter (fun k2 => shardOf k2 == i),
        (∀ e, shardResultKV i (keys.filter (fun k2 => shardOf k2 == i)) = .error e →
          alistFind resp k = some dataLookupFailedResult) ∧
        (∀ kv, shardResultKV i (keys.filter (fun k2 => shardOf k2 == i)) = .ok kv →
          alistFind resp k = some (updateValue kv k))) ∧
    ((∃ i, i < numShards ∧
        ∃ e, shardResultSet i (keys.filter (fun k2 => shardOf k2 == i)) = .error e) →
      ∃ s, getKeyValueSet numShards currentShardNum clientAvailable shardOf serLen
        shardResultSet keys = .error s) ∧
    ((∃ i, i < numShards ∧
        ∃ e, shardResultUint i (keys.filter (fun k2 => shardOf k2 == i)) = .error e) →
      ∃ s, getUInt32ValueSet numShards currentShardNum clientAvailable shardOf serLen
        shardResultUint keys = .error s) := by
  have hempty : keys.isEmpty = false := by
    rw [Bool.eq_false_iff]
    intro h
    exact hne (List.isEmpty_iff.mp h)
  have hnd : (List.flatten ((shardKeys numShards shardOf serLen false keys).map
      (fun li => li.keys))).Nodup := by
    rw [shardKeys_map_keys]
    exact nodup_flatten_shardBuckets numShards shardOf keys hnodup
  refine ⟨⟨assembleResponses shardResultKV 0
      (shardKeys numShards shardOf serLen false keys) [], ?_, ?_⟩, ?_, ?_⟩
  · unfold processShardedKeys
    rw [hempty]
    simp only [Bool.false_eq_true, if_false]
    rw [if_pos hava]
  · intro i hi k hk
    have hj : i < (shardKeys numShards shardOf serLen false keys).length := by
      rw [shardKeys_length]
      exact hi
    have hkmem : k ∈ ((shardKeys numShards shardOf serLen false keys).get ⟨i, hj⟩).keys := by
      rw [shardKeys_get_keys]
      exact hk
    have hfind := assembleResponses_find_of_mem shardResultKV
      (shardKeys numShards shardOf serLen false keys) 0 [] i hj k hnd hkmem
    rw [Nat.zero_add, shardKeys_get_keys] at hfind
    constructor
    · intro e herr
      rw [herr] at hfind
      exact hfind
    · intro kv hok2
      rw [hok2] at hfind
      exact hfind
  · rintro ⟨i, hi, e, herr⟩
    have hj : i < (shardKeys numShards shardOf serLen true keys).length := by
      rw [shardKeys_length]
      exact hi
    obtain ⟨s, hcol⟩ := collectResponses_error extractKeysetValues shardResultSet
      (shardKeys numShards shardOf serLen true keys) 0 []
      ⟨⟨i, hj⟩, e, by
        rw [Nat.zero_add]
        rw [show ((shardKeys numShards shardOf serLen true keys).get ⟨i, hj⟩).keys =
          keys.filter (fun k2 => shardOf k2 == i) from shardKeys_get_keys _ _ _ _ _ _ hj]
        exact herr⟩
    have hshard : getShardedKeyValueSet extractKeysetValues numShards currentShardNum
        clientAvailable shardOf serLen shardResultSet keys = .error s := by
      unfold getShardedKeyValueSet
      rw [if_pos hava]
      exact hcol
    refine ⟨s, ?_⟩
    unfold getKeyValueSet getKeyValueSets
    rw [hempty]
    simp only [Bool.false_eq_true, if_false]
    rw [hshard]
  · rintro ⟨i, hi, e, herr⟩
    have hj : i < (shardKeys numShards shardOf serLen true keys).length := by
      rw [shardKeys_length]
      exact hi
    obtain ⟨s, hcol⟩ := collectResponses_error extractUintsetValues shardResultUint
      (shardKeys numShards shardOf serLen true keys) 0 []
      ⟨⟨i, hj⟩, e, by
        rw [Nat.zero_add]
        rw [show ((shardKeys numShards shardOf serLen true keys).get ⟨i, hj⟩).keys =
          keys.filter (fun k2 => shardOf k2 == i) from shardKeys_get_keys _ _ _ _ _ _ hj]
        exact herr⟩
    have hshard : getShardedKeyValueSet extractUintsetValues numShards currentShardNum
        clientAvailable shardOf serLen shardResultUint keys = .error s := by
      unfold getShardedKeyValueSet
      rw [if_pos hava]
      exact hcol
    refine ⟨s, ?_⟩
    unfold getUInt32ValueSet getKeyValueSets
    rw [hempty]
    simp only [Bool.false_eq_true, if_false]
    rw [hshard]

/-- Witness for the amended C3 at the S3-style scenario: two shards, local
shard 0 holds `key4`, remote shard 1 fails with deadline-exceeded. -/
theorem shard_failure_partial_kv_request_error_sets_witness :
    (["key1", "key4"] : List String).Nodup ∧
    getLookupFuturesOk 2 0 (fun _ => true) = true ∧
    (["key1", "key4"] : List String) ≠ [] ∧
    ((∃ resp, processShardedKeys 2 0 (fun _ => true) s3ShardOf (fun _ => 0)
        s3KvOracle ["key1", "key4"] = .ok resp ∧
      ∀ i : Nat, i < 2 →
        ∀ k ∈ (["key1", "key4"] : List String).filter (fun k2 => s3ShardOf k2 == i),
        (∀ e : Status, s3KvOracle i
            ((["key1", "key4"] : List String).filter (fun k2 => s3ShardOf k2 == i)) =
            .error e → alistFind resp k = some dataLookupFailedResult) ∧
        (∀ kv : InternalLookupResponse, s3KvOracle i
            ((["key1", "key4"] : List String).filter (fun k2 => s3ShardOf k2 == i)) =
            .ok kv → alistFind resp k = some (updateValue kv k))) ∧
    ((∃ i : Nat, i < 2 ∧ ∃ e : Status, s3SetOracle i
          ((["key1", "key4"] : List String).filter (fun k2 => s3ShardOf k2 == i)) =
          .error e) →
      ∃ s, getKeyValueSet 2 0 (fun _ => true) s3ShardOf (fun _ => 0) s3SetOracle
        ["key1", "key4"] = .error s) ∧
    ((∃ i : Nat, i < 2 ∧ ∃ e : Status, s3UintOracle i
          ((["key1", "key4"] : List String).filter (fun k2 => s3ShardOf k2 == i)) =
          .error e) →
      ∃ s, getUInt32ValueSet 2 0 (fun _ => true) s3ShardOf (fun _ => 0) s3UintOracle
        ["key1", "key4"] = .error s)) :=
  ⟨by decide, by decide, by decide,
    shard_failure_partial_kv_request_error_sets 2 0 (fun _ => true) s3ShardOf
      (fun _ => 0) s3KvOracle s3SetOracle s3UintOracle ["key1", "key4"]
      (by decide) (by decide) (by decide)⟩

theorem alistInsert_ne_nil [BEq κ] (m : AList κ ν) (k : κ) (v : ν) :
    alistInsert m k v ≠ [] := by
  cases m with
  | nil => simp [alistInsert]
  | cons hd tl =>
    unfold alistInsert
    split <;> simp

theorem collectGroups_cons (udf : UdfPartition → Except Status String)
    (p : UdfPartition) (rest : List UdfPartition) (groups0 : AList Nat (List String)) :
    collectGroups udf (p :: rest) groups0 =
      collectGroups udf rest
        (match udf p with
         | .ok output => addPartitionOutput groups0 p.compressionGroupId output
         | .error _ => groups0) := rfl

theorem collectGroups_eq_nil_iff (udf : UdfPartition → Except Status String) :
    ∀ (partitions : List UdfPartition) (groups0 : AList Nat (List String)),
      collectGroups udf partitions groups0 = [] ↔
        groups0 = [] ∧ ∀ p ∈ partitions, ∃ s, udf p = .error s
  | [], groups0 => by simp [collectGroups]
  | p :: rest, groups0 => by
    rw [collectGroups_cons]
    cases hup : udf p with
    | error s =>
      rw [collectGroups_eq_nil_iff udf rest groups0]
      constructor
      · rintro ⟨h0, hall⟩
        refine ⟨h0, fun q hq => ?_⟩
        rcases List.mem_cons.mp hq with he | hm
        · exact ⟨s, he ▸ hup⟩
        · exact hall q hm
      · rintro ⟨h0, hall⟩
        exact ⟨h0, fun q hq => hall q (List.mem_cons_of_mem p hq)⟩
    | ok out =>
      rw [collectGroups_eq_nil_iff udf rest _]
      constructor
      · rintro ⟨h0, _⟩
        exact absurd h0 (alistInsert_ne_nil _ _ _)
      · rintro ⟨_, hall⟩
        obtain ⟨s, hs⟩ := hall p (List.mem_cons_self p rest)
        rw [hup] at hs
        cases hs

theorem successfulOutputs_nil (udf : UdfPartition → Except Status String) (groupId : Nat) :
    successfulOutputs udf [] groupId = [] := rfl

theorem successfulOutputs_cons_error (udf : UdfPartition → Except Status String)
    (p : UdfPartition) (rest : List UdfPartition) (groupId : Nat) (s : Status)
    (hup : udf p = .error s) :
    successfulOutputs udf (p :: rest) groupId = successfulOutputs udf rest groupId := by
  unfold successfulOutputs
  by_cases hg : (p.compressionGroupId == groupId)
  · simp [List.filter_cons, hg, List.filterMap_cons, hup, Except.toOption]
  · simp [List.filter_cons, hg]

theorem successfulOutputs_cons_ok_eq (udf : UdfPartition → Except Status String)
    (p : UdfPartition) (rest : List UdfPartition) (out : String)
    (hup : udf p = .ok out) :
    successfulOutputs udf (p :: rest) p.compressionGroupId =
      out :: successfulOutputs udf rest p.compressionGroupId := by
  unfold successfulOutputs
  simp [List.filter_cons, List.filterMap_cons, hup, Except.toOption]

theorem successfulOutputs_cons_ok_ne (udf : UdfPartition → Except Status String)
    (p : UdfPartition) (rest : List UdfPartition) (groupId : Nat)
    (hg : p.compressionGroupId ≠ groupId) :
    successfulOutputs udf (p :: rest) groupId = successfulOutputs udf rest groupId := by
  unfold successfulOutputs
  simp [List.filter_cons, hg]

theorem collectGroups_find (udf : UdfPartition → Except Status String) :
    ∀ (partitions : List UdfPartition) (groups0 : AList Nat (List String)) (gid : Nat),
      alistFind (collectGroups udf partitions groups0) gid =
        (match alistFind groups0 gid with
         | some l => some (l ++ successfulOutputs udf partitions gid)
         | none =>
           if successfulOutputs udf partitions gid = [] then none
           else some (successfulOutputs udf partitions gid))
  | [], groups0, gid => by
    cases h : alistFind groups0 gid <;>
      simp [collectGroups, successfulOutputs_nil, h]
  | p :: rest, groups0, gid => by
    rw [collectGroups_cons]
    cases hup : udf p with
    | error s =>
      rw [collectGroups_find udf rest groups0 gid,
        successfulOutputs_cons_error udf p rest gid s hup]
    | ok out =>
      by_cases hg : p.compressionGroupId = gid
      · subst hg
        rw [collectGroups_find udf rest _ p.compressionGroupId,
          successfulOutputs_cons_ok_eq udf p rest out hup]
        have hfound : alistFind
            (addPartitionOutput groups0 p.compressionGroupId out) p.compressionGroupId =
            some (((alistFind groups0 p.compressionGroupId).getD []) ++ [out]) := by
          unfold addPartitionOutput
          exact alistFind_insert_self _ _ _
        rw [hfound]
        cases h : alistFind groups0 p.compressionGroupId <;> simp [h]
      · rw [collectGroups_find udf rest _ gid,
          successfulOutputs_cons_ok_ne udf p rest gid hg]
        have hskip : alistFind (addPartitionOutput groups0 p.compressionGroupId out) gid =
            alistFind groups0 gid := by
          unfold addPartitionOutput
          exact alistFind_insert_ne _ _ _ _ (fun he => hg he.symm)
        rw [hskip]

theorem collectGroups_keys_nodup (udf : UdfPartition → Except Status String) :
    ∀ (partitions : List UdfPartition) (groups0 : AList Nat (List String)),
      (alistKeys groups0).Nodup → (alistKeys (collectGroups udf partitions groups0)).Nodup
  | [], _, h => h
  | p :: rest, groups0, h => by
    rw [collectGroups_cons]
    cases hup : udf p with
    | error s => exact collectGroups_keys_nodup udf rest groups0 h
    | ok out =>
      refine collectGroups_keys_nodup udf rest _ ?_
      unfold addPartitionOutput
      by_cases hmem : p.compressionGroupId ∈ alistKeys groups0
      · rw [alistKeys_insert_of_mem _ _ _ hmem]
        exact h
      · rw [alistKeys_insert_of_not_mem _ _ _ hmem]
        rw [List.nodup_append]
        exact ⟨h, List.nodup_singleton _, by
          intro a ha hb
          have : a = p.compressionGroupId := by simpa using hb
          exact hmem (this ▸ ha)⟩

theorem mem_collectGroups_keys (udf : UdfPartition → Except Status String)
    (partitions : List UdfPartition) (groups0 : AList Nat (List String)) (gid : Nat) :
    gid ∈ alistKeys (collectGroups udf partitions groups0) ↔
      gid ∈ alistKeys groups0 ∨ successfulOutputs udf partitions gid ≠ [] := by
  rw [← alistFind_isSome_iff_mem, ← alistFind_isSome_iff_mem, collectGroups_find]
  cases h : alistFind groups0 gid <;>
    by_cases hs : successfulOutputs udf partitions gid = [] <;> simp [h, hs]

theorem alistFind_of_mem_of_nodup [BEq κ] [LawfulBEq κ] :
    ∀ (m : AList κ ν) (k : κ) (v : ν), (alistKeys m).Nodup → (k, v) ∈ m →
      alistFind m k = some v
  | [], _, _, _, h => absurd h (List.not_mem_nil _)
  | (k0, v0) :: tl, k, v, hnd, hmem => by
    have h3 : (k0 :: List.map Prod.fst tl).Nodup := hnd
    rcases List.mem_cons.mp hmem with he | hm
    · have hk : k0 = k := (Prod.ext_iff.mp he.symm).1
      have hv : v0 = v := (Prod.ext_iff.mp he.symm).2
      subst hk
      subst hv
      simp [alistFind]
    · have hk : k ∈ alistKeys tl := by
        simp only [alistKeys, List.mem_map]
        exact ⟨(k, v), hm, rfl⟩
      have hk0 : k0 ∉ alistKeys tl := (List.nodup_cons.mp h3).1
      have hne : (k0 == k) = false := by
        simp only [beq_eq_false_iff_ne]
        intro he
        exact hk0 (he ▸ hk)
      have htl : (alistKeys tl).Nodup := (List.nodup_cons.mp h3).2
      simp only [alistFind, hne, Bool.false_eq_true, if_false]
      exact alistFind_of_mem_of_nodup tl k v htl hm

theorem successfulOutputs_ne_nil_iff (udf : UdfPartition → Except Status String)
    (partitions : List UdfPartition) (gid : Nat) :
    successfulOutputs udf partitions gid ≠ [] ↔
      ∃ p ∈ partitions, p.compressionGroupId = gid ∧ ∃ out, udf p = .ok out := by
  unfold successfulOutputs
  rw [Ne, List.filterMap_eq_nil_iff]
  constructor
  · intro h
    push_neg at h
    obtain ⟨p, hp, hne⟩ := h
    have hpmem := List.mem_filter.mp hp
    cases hu : udf p with
    | error s => exact absurd (by simp [hu, Except.toOption]) hne
    | ok out => exact ⟨p, hpmem.1, by simpa using hpmem.2, out, hu⟩
  · rintro ⟨p, hp, hgid, out, hout⟩ hall
    have hthis := hall p (List.mem_filter.mpr ⟨hp, by simp [hgid]⟩)
    rw [hout] at hthis
    simp [Except.toOption] at hthis

/-- C4 counterexample: a three-partition request whose every UDF call
fails yields a request-level error whose code is `INVALID_ARGUMENT` (3, as
pinned by the handler test `AllPartitionsFail_ReturnError`), not
`Internal` (13) as the claim states. -/
theorem all_partitions_fail_error_code_counterexample :
    getValues (fun _ => .error { code := kInternalCode, message := "UDF execution error" })
      [{ id := 0, compressionGroupId := 0 }, { id := 1, compressionGroupId := 1 },
        { id := 2, compressionGroupId := 0 }] false =
      .error { code := kInvalidArgumentCode, message := "All partitions failed" } ∧
    kInvalidArgumentCode ≠ kInternalCode :=
  ⟨rfl, by decide⟩

/-- C4 (amended): on the multi-partition path, `GetValues` returns a
request-level error iff every partition's UDF call fails, and that single
aggregate error carries code `InvalidArgument` (grpc 3), not `Internal`;
whenever at least one partition succeeds the request returns successfully.
On the single-partition legacy path a UDF failure is embedded as
`single_partition.status` and the request succeeds. -/
theorem getValues_aggregate_error_policy (udf : UdfPartition → Except Status String)
    (partitions : List UdfPartition) (hne : partitions ≠ []) :
    ((∃ s, getValues udf partitions false = .error s) ↔
      ∀ p ∈ partitions, ∃ s, udf p = .error s) ∧
    (∀ s, getValues udf partitions false = .error s → s.code = kInvalidArgumentCode) ∧
    (∀ p rest s, partitions = p :: rest → udf p = .error s →
      getValues udf partitions true = .ok (.singlePartitionStatus p.id s)) := by
  cases partitions with
  | nil => exact absurd rfl hne
  | cons p0 rest0 =>
    have hGnil : collectGroups udf (p0 :: rest0) [] = [] ↔
        ∀ p ∈ p0 :: rest0, ∃ s, udf p = .error s := by
      rw [collectGroups_eq_nil_iff udf (p0 :: rest0) []]
      simp
    by_cases hemp : collectGroups udf (p0 :: rest0) [] = []
    · have hpm : processMultiplePartitions udf (p0 :: rest0) =
          .error { code := kInvalidArgumentCode, message := "All partitions failed" } := by
        unfold processMultiplePartitions
        rw [hemp]
        rfl
      have hval : getValues udf (p0 :: rest0) false =
          .error { code := kInvalidArgumentCode, message := "All partitions failed" } := by
        show (match processMultiplePartitions udf (p0 :: rest0) with
          | .error s => (Except.error s : Except Status GetValuesResponse)
          | .ok groups => .ok (.compressionGroups groups)) = _
        rw [hpm]
      refine ⟨⟨fun _ => hGnil.mp hemp, fun _ => ⟨_, hval⟩⟩, fun s hs => ?_, ?_⟩
      · rw [hval] at hs
        cases hs
        rfl
      · intro p rest s hpr hups
        cases hpr
        have hval1 : getValues udf (p0 :: rest0) true =
            (match udf p0 with
             | .ok output => (Except.ok (GetValuesResponse.singlePartitionOutput p0.id output) :
                 Except Status GetValuesResponse)
             | .error s2 => .ok (.singlePartitionStatus p0.id s2)) := rfl
        rw [hval1, hups]
    · have hGne : (collectGroups udf (p0 :: rest0) []).isEmpty = false := by
        rw [Bool.eq_false_iff]
        intro h
        exact hemp (List.isEmpty_iff.mp h)
      have hpm : processMultiplePartitions udf (p0 :: rest0) =
          .ok ((collectGroups udf (p0 :: rest0) []).map
            (fun g => { compressionGroupId := g.1, content := g.2 })) := by
        unfold processMultiplePartitions
        rw [hGne]
        rfl
      have hval : getValues udf (p0 :: rest0) false =
          .ok (.compressionGroups ((collectGroups udf (p0 :: rest0) []).map
            (fun g => { compressionGroupId := g.1, content := g.2 }))) := by
        show (match processMultiplePartitions udf (p0 :: rest0) with
          | .error s => (Except.error s : Except Status GetValuesResponse)
          | .ok groups => .ok (.compressionGroups groups)) = _
        rw [hpm]
      refine ⟨⟨fun hs => ?_, fun hall => absurd (hGnil.mpr hall) hemp⟩, fun s hs => ?_, ?_⟩
      · obtain ⟨s, hs⟩ := hs
        rw [hval] at hs
        cases hs
      · rw [hval] at hs
        cases hs
      · intro p rest s hpr hups
        cases hpr
        have hval1 : getValues udf (p0 :: rest0) true =
            (match udf p0 with
             | .ok output => (Except.ok (GetValuesResponse.singlePartitionOutput p0.id output) :
                 Except Status GetValuesResponse)
             | .error s2 => .ok (.singlePartitionStatus p0.id s2)) := rfl
        rw [hval1, hups]

/-- Witness for the amended C4: a two-partition request in which partition
1 succeeds. -/
theorem getValues_aggregate_error_policy_witness :
    exampleMultiPartitions ≠ [] ∧
    (((∃ s, getValues exampleMultiPartitionUdf exampleMultiPartitions false = .error s) ↔
      ∀ p ∈ exampleMultiPartitions, ∃ s, exampleMultiPartitionUdf p = .error s) ∧
    (∀ s, getValues exampleMultiPartitionUdf exampleMultiPartitions false = .error s →
      s.code = kInvalidArgumentCode) ∧
    (∀ p rest s, exampleMultiPartitions = p :: rest →
      exampleMultiPartitionUdf p = .error s →
      getValues exampleMultiPartitionUdf exampleMultiPartitions true =
        .ok (.singlePartitionStatus p.id s))) :=
  ⟨by decide,
    getValues_aggregate_error_policy exampleMultiPartitionUdf exampleMultiPartitions
      (by decide)⟩

/-- C5: for every multi-partition request in which at least one partition
succeeds, the handler succeeds and builds exactly one compression group
per distinct `compression_group_id` that has a successful partition: the
group ids are duplicate-free, a group id is present iff some partition of
that group succeeded (so a group whose every partition failed is omitted
entirely), and each group's content is exactly the list of its successful
partitions' UDF outputs in partition order (failed partitions omitted). -/
theorem multi_partition_compression_groups (udf : UdfPartition → Except Status String)
    (partitions : List UdfPartition)
    (hsucc : ∃ p ∈ partitions, ∃ out, udf p = .ok out) :
    ∃ groups, getValues udf partitions false = .ok (.compressionGroups groups) ∧
      (groups.map (fun g => g.compressionGroupId)).Nodup ∧
      (∀ gid, gid ∈ groups.map (fun g => g.compressionGroupId) ↔
        ∃ p ∈ partitions, p.compressionGroupId = gid ∧ ∃ out, udf p = .ok out) ∧
      (∀ g ∈ groups, g.content = successfulOutputs udf partitions g.compressionGroupId ∧
        g.content ≠ []) := by
  obtain ⟨psucc, hpmem, out0, hout0⟩ := hsucc
  cases hpart : partitions with
  | nil =>
    rw [hpart] at hpmem
    exact absurd hpmem (List.not_mem_nil psucc)
  | cons p0 rest0 =>
    subst hpart
    have hemp : collectGroups udf (p0 :: rest0) [] ≠ [] := by
      intro h
      obtain ⟨s, hs⟩ := ((collectGroups_eq_nil_iff udf (p0 :: rest0) []).mp h).2 psucc hpmem
      rw [hout0] at hs
      cases hs
    have hGne : (collectGroups udf (p0 :: rest0) []).isEmpty = false := by
      rw [Bool.eq_false_iff]
      intro h
      exact hemp (List.isEmpty_iff.mp h)
    have hpm : processMultiplePartitions udf (p0 :: rest0) =
        .ok ((collectGroups udf (p0 :: rest0) []).map
          (fun g => { compressionGroupId := g.1, content := g.2 })) := by
      unfold processMultiplePartitions
      rw [hGne]
      rfl
    have hval : getValues udf (p0 :: rest0) false =
        .ok (.compressionGroups ((collectGroups udf (p0 :: rest0) []).map
          (fun g => { compressionGroupId := g.1, content := g.2 }))) := by
      show (match processMultiplePartitions udf (p0 :: rest0) with
        | .error s => (Except.error s : Except Status GetValuesResponse)
        | .ok groups => .ok (.compressionGroups groups)) = _
      rw [hpm]
    have hids : ((collectGroups udf (p0 :: rest0) []).map
        (fun g => { compressionGroupId := g.1, content := g.2 : CompressionGroup })).map
        (fun g => g.compressionGroupId) = alistKeys (collectGroups udf (p0 :: rest0) []) := by
      rw [List.map_map]
      rfl
    have hnd : (alistKeys (collectGroups udf (p0 :: rest0) [])).Nodup :=
      collectGroups_keys_nodup udf (p0 :: rest0) [] (List.nodup_nil)
    refine ⟨_, hval, ?_, ?_, ?_⟩
    · rw [hids]
      exact hnd
    · intro gid
      rw [hids, mem_collectGroups_keys udf (p0 :: rest0) [] gid]
      rw [successfulOutputs_ne_nil_iff udf (p0 :: rest0) gid]
      simp [alistKeys]
    · intro g hg
      obtain ⟨pair, hpair, hgeq⟩ := List.mem_map.mp hg
      have hpairmem : (pair.1, pair.2) ∈ collectGroups udf (p0 :: rest0) [] := hpair
      have hfind := alistFind_of_mem_of_nodup _ pair.1 pair.2 hnd hpairmem
      rw [collectGroups_find udf (p0 :: rest0) [] pair.1] at hfind
      have hfind2 : (if successfulOutputs udf (p0 :: rest0) pair.1 = [] then none
          else some (successfulOutputs udf (p0 :: rest0) pair.1)) = some pair.2 := by
        rw [← hfind]
        rfl
      by_cases hnil : successfulOutputs udf (p0 :: rest0) pair.1 = []
      · rw [if_pos hnil] at hfind2
        cases hfind2
      · rw [if_neg hnil] at hfind2
        have hcontent : successfulOutputs udf (p0 :: rest0) pair.1 = pair.2 :=
          Option.some.inj hfind2
        rw [← hgeq]
        constructor
        · exact hcontent.symm
        · show pair.2 ≠ []
          rw [← hcontent]
          exact hnil

/-- Witness for C5 at the S5-style scenario: three partitions across two
compression groups, the third partition's UDF fails. -/
theorem multi_partition_compression_groups_witness :
    (∃ p ∈ exampleMultiPartitions, ∃ out, exampleMultiPartitionUdf p = .ok out) ∧
    (∃ groups, getValues exampleMultiPartitionUdf exampleMultiPartitions false =
        .ok (.compressionGroups groups) ∧
      (groups.map (fun g => g.compressionGroupId)).Nodup ∧
      (∀ gid, gid ∈ groups.map (fun g => g.compressionGroupId) ↔
        ∃ p ∈ exampleMultiPartitions, p.compressionGroupId = gid ∧
          ∃ out, exampleMultiPartitionUdf p = .ok out) ∧
      (∀ g ∈ groups, g.content =
          successfulOutputs exampleMultiPartitionUdf exampleMultiPartitions
            g.compressionGroupId ∧ g.content ≠ [])) :=
  ⟨⟨{ id := 0, compressionGroupId := 0 }, by decide, "output0", rfl⟩,
    multi_partition_compression_groups exampleMultiPartitionUdf exampleMultiPartitions
      ⟨{ id := 0, compressionGroupId := 0 }, by decide, "output0", rfl⟩⟩

end KvServer

